import Mathlib

/-!
# Star patterns of `Common::Database` (`src/common/database/Database.h`)

A `QString` is modelled as a list of characters.  The scanner `parseStarPattern`
is embedded as the loop it is in the source: a state made of the two iterators
(as offsets from `constBegin()`), the `isEscaped` flag and the result buffer,
advanced once per character of the pattern.
-/

namespace Common

/-- The backslash, `QLatin1Char('\\')`. -/
def backslash : Char := Char.ofNat 92

/-- The star, `QLatin1Char('*')`. -/
def star : Char := Char.ofNat 42

/-- The percent sign, the multi-character wildcard of LIKE. -/
def percent : Char := Char.ofNat 37

/-- The underscore, the one-character wildcard of LIKE. -/
def underscore : Char := Char.ofNat 95

/-- The single quote. -/
def quote : Char := Char.ofNat 39

/-- The full stop, the dot of a regular expression. -/
def dot : Char := Char.ofNat 46

/-- The line feed. -/
def lineFeed : Char := Char.ofNat 10

/-- `QString::mid(position, n)`: at most `n` characters starting at `position`. -/
def mid (s : List Char) (position n : Nat) : List Char :=
  (s.drop position).take n

/-- The local variables of `parseStarPattern` that change in its loop; the
iterators are kept as their distance from `pattern.constBegin()`. -/
structure ScanState where
  currentStart : Nat
  currentPosition : Nat
  isEscaped : Bool
  resultPattern : List Char
deriving DecidableEq, Repr

/-- The lambda `stringFromIterators` of `parseStarPattern`. -/
def stringFromIterators (pattern : List Char) (currentStart currentPosition : Nat) : List Char :=
  mid pattern currentStart (currentPosition - currentStart)

/-- One turn of the `for` loop of `parseStarPattern`, the increment
`++currentPosition` included; `c` is `*currentPosition`. -/
def scanStep (pattern joker : List Char) (escape : List Char → List Char)
    (st : ScanState) (c : Char) : ScanState :=
  if st.isEscaped then
    { st with isEscaped := false, currentPosition := st.currentPosition + 1 }
  else if c = backslash then
    { st with isEscaped := true, currentPosition := st.currentPosition + 1 }
  else if c = star then
    { currentStart := st.currentPosition + 1
      currentPosition := st.currentPosition + 1
      isEscaped := st.isEscaped
      resultPattern := st.resultPattern
        ++ (escape (stringFromIterators pattern st.currentStart st.currentPosition) ++ joker) }
  else
    { st with currentPosition := st.currentPosition + 1 }

/-- The state of `parseStarPattern` when its loop is entered. -/
def scanInit : ScanState :=
  { currentStart := 0, currentPosition := 0, isEscaped := false, resultPattern := [] }

/-- The part of `parseStarPattern` after the loop: the trailing run is escaped
and appended when it is not empty. -/
def scanFinish (pattern : List Char) (escape : List Char → List Char) (st : ScanState) :
    List Char :=
  if st.currentStart ≠ st.currentPosition then
    st.resultPattern ++ escape (stringFromIterators pattern st.currentStart st.currentPosition)
  else
    st.resultPattern

/-- The function `parseStarPattern(pattern, joker, escape)`. -/
def parseStarPattern (pattern joker : List Char) (escape : List Char → List Char) : List Char :=
  scanFinish pattern escape (pattern.foldl (scanStep pattern joker escape) scanInit)

/-- The worker of `replace`: `skip` characters of an occurrence already replaced
are still to be passed over. -/
def replaceAux (before after : List Char) : Nat → List Char → List Char
  | _, [] => []
  | skip + 1, _ :: cs => replaceAux before after skip cs
  | 0, c :: cs =>
    if before.isPrefixOf (c :: cs) then
      after ++ replaceAux before after (before.length - 1) cs
    else
      c :: replaceAux before after 0 cs

/-- `QString::replace(before, after)` for a non-empty `before`: every occurrence
of `before`, found from left to right without overlap, becomes `after`. -/
def replace (s before after : List Char) : List Char :=
  replaceAux before after 0 s

/-- The function `escapeSqliteLikePattern(pattern)`. -/
def escapeSqliteLikePattern (pattern : List Char) : List Char :=
  replace
    (replace
      (replace pattern [percent] [backslash, percent])
      [underscore] [backslash, underscore])
    [quote] [backslash, quote]

/-- The function `starPatternToLike(pattern)`. -/
def starPatternToLike (pattern : List Char) : List Char :=
  parseStarPattern pattern [percent] escapeSqliteLikePattern

/-- The string `escape(L)` of a literal `L` for the star-pattern language: a
backslash is put before every star and every backslash. -/
def escapeStarPattern (literal : List Char) : List Char :=
  literal.flatMap fun c => if c = star ∨ c = backslash then [backslash, c] else [c]

/-- The text a star pattern stands for once its escapes are resolved: each
backslash met in non-escaped state is dropped and the character after it is
kept (`escaped` is the state of the scan). -/
def unescapeFrom : Bool → List Char → List Char
  | _, [] => []
  | true, c :: cs => c :: unescapeFrom false cs
  | false, c :: cs =>
    if c = backslash then unescapeFrom true cs else c :: unescapeFrom false cs

/-- The function `unescape(p)` of the specification. -/
def unescape (p : List Char) : List Char :=
  unescapeFrom false p

/-! ## LIKE patterns -/

/-- The wildcard `%` in front of a rest of pattern `k`: some suffix of the
subject satisfies `k`. -/
def likeAnyRun (k : List Char → Bool) : List Char → Bool
  | [] => k []
  | c :: cs => k (c :: cs) || likeAnyRun k cs

/-- A LIKE pattern read with the backslash as escape character: `%` is any run
of characters, `_` is any one character, a backslash makes the character after
it literal, every other character stands for itself and is compared as it is.
A backslash that ends the pattern matches nothing, as in SQLite. -/
def likeMatch : List Char → List Char → Bool
  | [], s => s.isEmpty
  | c :: p, s =>
    if c = percent then
      likeAnyRun (likeMatch p) s
    else if c = underscore then
      match s with
      | [] => false
      | _ :: t => likeMatch p t
    else if c = backslash then
      match p with
      | [] => false
      | x :: q =>
        match s with
        | [] => false
        | y :: t => y == x && likeMatch q t
    else
      match s with
      | [] => false
      | y :: t => y == c && likeMatch p t

/-! ## Regular expressions -/

/-- A `QRegularExpression` built from a pattern string alone, with no pattern
option set. -/
structure QRegularExpression where
  pattern : List Char
deriving DecidableEq, Repr

/-- The characters `[a-zA-Z0-9_]`, which `QRegularExpression::escape` leaves
alone. -/
def isWordChar (c : Char) : Bool :=
  ('a' ≤ c && c ≤ 'z') || ('A' ≤ c && c ≤ 'Z') || ('0' ≤ c && c ≤ '9') || c == underscore

/-- `QRegularExpression::escape(str)`: the NUL character becomes backslash-zero,
every other character outside `[a-zA-Z0-9_]` gets a backslash in front. -/
def QRegularExpression.escape (str : List Char) : List Char :=
  str.flatMap fun current =>
    if current = Char.ofNat 0 then [backslash, '0']
    else if isWordChar current then [current]
    else [backslash, current]

/-- `QRegularExpression::anchoredPattern(expression)`. -/
def QRegularExpression.anchoredPattern (expression : List Char) : List Char :=
  [backslash, 'A', Char.ofNat 40, Char.ofNat 63, Char.ofNat 58] ++ expression
    ++ [Char.ofNat 41, backslash, 'z']

/-- The function `starPatternToRegex(pattern)`. -/
def starPatternToRegex (pattern : List Char) : QRegularExpression :=
  { pattern := QRegularExpression.anchoredPattern
      (parseStarPattern pattern [dot, star] QRegularExpression.escape) }

/-- The pieces of the expressions `starPatternToRegex` can build. -/
inductive RegexItem where
  | literal (c : Char)
  | anyRun
deriving DecidableEq, Repr

/-- An octal digit. -/
def isOctalDigit (c : Char) : Bool :=
  '0' ≤ c && c ≤ '7'

/-- The value of an octal digit. -/
def octalValue (c : Char) : Nat :=
  c.toNat - 48

/-- Put an item in front of a sequence that was read. -/
def consItem (i : RegexItem) (rest : Option (List RegexItem)) : Option (List RegexItem) :=
  rest.map fun l => i :: l

/-- The octal digits, at most two, that follow backslash-zero: the code they
give and how many of them there are. -/
def octalRun : List Char → Nat × Nat
  | [] => (0, 0)
  | [d1] => if isOctalDigit d1 then (octalValue d1, 1) else (0, 0)
  | d1 :: d2 :: _ =>
    if isOctalDigit d1 then
      if isOctalDigit d2 then (8 * octalValue d1 + octalValue d2, 2) else (octalValue d1, 1)
    else (0, 0)

/-- The worker of `parseItems`: `skip` characters that belong to the item read
last are still to be passed over. -/
def parseItemsAux : Nat → List Char → Option (List RegexItem)
  | _, [] => some []
  | skip + 1, _ :: rest => parseItemsAux skip rest
  | 0, c :: rest =>
    if c = backslash then
      match rest.head? with
      | none => none
      | some x =>
        if x = '0' then
          consItem (RegexItem.literal (Char.ofNat (octalRun (rest.drop 1)).1))
            (parseItemsAux (1 + (octalRun (rest.drop 1)).2) rest)
        else if isWordChar x then none
        else consItem (RegexItem.literal x) (parseItemsAux 1 rest)
    else if c = dot then
      if rest.head? = some star then consItem RegexItem.anyRun (parseItemsAux 1 rest) else none
    else if isWordChar c then consItem (RegexItem.literal c) (parseItemsAux 0 rest)
    else none

/-- Reading of an expression as PCRE2 does where `starPatternToRegex` is
concerned: dot-star is a run of characters, a backslash before a character that
is no letter and no digit makes it literal, backslash-zero with up to two octal
digits after it is the character of that code, a character of `[a-zA-Z0-9_]`
stands for itself.  Any other expression is outside what is modelled. -/
def parseItems (p : List Char) : Option (List RegexItem) :=
  parseItemsAux 0 p

/-- Dot-star in front of a rest of expression `k`: the dot takes any character
but a line feed, since `DotMatchesEverythingOption` is not set. -/
def dotStar (k : List Char → Bool) : List Char → Bool
  | [] => k []
  | c :: cs => k (c :: cs) || (c != lineFeed && dotStar k cs)

/-- The items take up the whole subject. -/
def matchItems : List RegexItem → List Char → Bool
  | [], s => s.isEmpty
  | RegexItem.literal c :: items, s =>
    match s with
    | [] => false
    | y :: t => y == c && matchItems items t
  | RegexItem.anyRun :: items, s => dotStar (matchItems items) s

/-- The expression between the anchors that `anchoredPattern` puts around it. -/
def anchoredBody (p : List Char) : Option (List Char) :=
  if [backslash, 'A', Char.ofNat 40, Char.ofNat 63, Char.ofNat 58].isPrefixOf p
      && [Char.ofNat 41, backslash, 'z'].isSuffixOf (p.drop 5) then
    some ((p.drop 5).take (p.length - 8))
  else
    none

/-- Whether `re.match(subject).hasMatch()` holds, for an anchored expression of
the modelled kind; `none` for any other expression. -/
def QRegularExpression.hasMatch (re : QRegularExpression) (subject : List Char) : Option Bool :=
  match anchoredBody re.pattern with
  | none => none
  | some body =>
    match parseItems body with
    | none => none
    | some items => some (matchItems items subject)

/-! ## The scanner by literal runs -/

/-- Put a character in front of the first run. -/
def consRun (c : Char) : List (List Char) → List (List Char)
  | [] => [[c]]
  | r :: rs => (c :: r) :: rs

/-- The literal runs `r0..rk` of a pattern: it is cut at exactly the stars that
are not escaped.  A backslash met in non-escaped state escapes the character
after it, another backslash included; the backslashes stay in the runs.
`escaped` tells whether the first character is escaped. -/
def splitRuns : Bool → List Char → List (List Char)
  | _, [] => [[]]
  | true, c :: cs => consRun c (splitRuns false cs)
  | false, c :: cs =>
    if c = backslash then consRun c (splitRuns true cs)
    else if c = star then [] :: splitRuns false cs
    else consRun c (splitRuns false cs)

/-- The runs put together again: every run but the last is escaped and followed
by the joker, the last one is escaped when it is not empty and left out when it
is. -/
def joinRuns (joker : List Char) (escape : List Char → List Char) (runs : List (List Char)) :
    List Char :=
  (runs.dropLast.flatMap fun r => escape r ++ joker)
    ++ (if runs.getLastD [] = [] then [] else escape (runs.getLastD []))

/-- The reference definition of `parseStarPattern`, after the words of the
specification: the literal runs between the unescaped stars, escaped and joined
by the joker. -/
def parseStarPatternByRuns (pattern joker : List Char) (escape : List Char → List Char) :
    List Char :=
  joinRuns joker escape (splitRuns false pattern)

/-- The run in progress put in front of the first run still to come. -/
def appendHead (cur : List Char) : List (List Char) → List (List Char)
  | [] => [cur]
  | r :: rs => (cur ++ r) :: rs

/-- What `escapeSqliteLikePattern` makes of one character. -/
def escapeSqliteLikeChar (c : Char) : List Char :=
  if c = percent then [backslash, percent]
  else if c = underscore then [backslash, underscore]
  else if c = quote then [backslash, quote]
  else [c]

/-- A glob in which the star stands for any run of characters, the empty one
included, and every other character stands for itself. -/
def globMatch : List Char → List Char → Bool
  | [], s => s.isEmpty
  | c :: p, s =>
    if c = star then
      likeAnyRun (globMatch p) s
    else
      match s with
      | [] => false
      | y :: t => y == c && globMatch p t

/-- The per-character map of the three replacements: a backslash goes before a
percent sign, an underscore and a quote, every other character stays alone. -/
def escapeSqliteLikeCharwise (t : List Char) : List Char :=
  t.flatMap fun c =>
    if c = percent ∨ c = underscore ∨ c = quote then [backslash, c] else [c]

/-- How many characters of a string are a percent sign, an underscore or a
quote. -/
def countSqliteLikeSpecial (t : List Char) : Nat :=
  t.countP fun c => c == percent || c == underscore || c == quote

end Common

/-!
# Query terms (`src/terms.h`)

The header declares the terms; the code that merges them into a query is not
part of the sources at hand and is written down from the specification.
-/

namespace KActivities.Stats

namespace Terms

/-- The enumeration `Terms::Order`. -/
inductive Order where
  | HighScoredFirst
  | RecentlyUsedFirst
  | RecentlyCreatedFirst
  | OrderByUrl
  | OrderByTitle
deriving DecidableEq, Repr

/-- The enumeration `Terms::Select`. -/
inductive Select where
  | LinkedResources
  | UsedResources
  | AllResources
deriving DecidableEq, Repr

/-- The struct `Terms::Limit`. -/
structure Limit where
  value : Int
deriving DecidableEq, Repr

/-- The struct `Terms::Offset`. -/
structure Offset where
  value : Int
deriving DecidableEq, Repr

/-- The struct `Terms::Date`, a `QDate` being the number of its day; `finish`
is the member `end`. -/
structure Date where
  start : Int
  finish : Int
deriving DecidableEq, Repr

end Terms

/-- One term handed to the query compiler: the term types of `terms.h` as one
tagged variant; the list-valued ones carry their `values`. -/
inductive Term where
  | order (mode : Terms.Order)
  | select (mode : Terms.Select)
  | limit (t : Terms.Limit)
  | offset (t : Terms.Offset)
  | type (values : List String)
  | agent (values : List String)
  | activity (values : List String)
  | url (values : List String)
  | title (values : List String)
  | date (t : Terms.Date)
deriving DecidableEq, Repr

/-- The errors of the specification that the query compiler can report. -/
inductive QueryError where
  | InvalidQuery
deriving DecidableEq, Repr

/-- The resolved query. -/
structure Query where
  ordering : Terms.Order
  selection : Terms.Select
  limit : Int
  offset : Int
  types : List String
  agents : List String
  activities : List String
  urlFilters : List String
  titleFilters : List String
  dateRange : Option Terms.Date
deriving DecidableEq, Repr

/-- What the terms read so far amount to; a scalar dimension no term has set
yet is `none`. -/
structure Merged where
  ordering : Option Terms.Order
  selection : Option Terms.Select
  limit : Option Int
  offset : Option Int
  types : List String
  agents : List String
  activities : List String
  urlFilters : List String
  titleFilters : List String
  dateRange : Option Terms.Date
deriving DecidableEq, Repr

/-- Nothing read yet. -/
def Merged.empty : Merged :=
  { ordering := none, selection := none, limit := none, offset := none, types := [],
    agents := [], activities := [], urlFilters := [], titleFilters := [], dateRange := none }

/-- Modelled from the spec: the merge policy of the query compiler, whose code
is not among the sources.  For a scalar dimension the last occurrence wins, for
a list dimension the occurrences are put one after the other in input order. -/
def mergeTerm (m : Merged) : Term → Merged
  | Term.order mode => { m with ordering := some mode }
  | Term.select mode => { m with selection := some mode }
  | Term.limit t => { m with limit := some t.value }
  | Term.offset t => { m with offset := some t.value }
  | Term.type values => { m with types := m.types ++ values }
  | Term.agent values => { m with agents := m.agents ++ values }
  | Term.activity values => { m with activities := m.activities ++ values }
  | Term.url values => { m with urlFilters := m.urlFilters ++ values }
  | Term.title values => { m with titleFilters := m.titleFilters ++ values }
  | Term.date t => { m with dateRange := some t }

/-- Modelled from the spec: the offset constraint of the query compiler, whose
code is not among the sources.  An offset needs a limit that was given and is
positive. -/
def offsetAllowed (m : Merged) : Bool :=
  match m.offset with
  | none => true
  | some _ =>
    match m.limit with
    | none => false
    | some n => decide (0 < n)

/-- Modelled from the spec: the date constraint of the query compiler, whose
code is not among the sources.  A range must not be inverted. -/
def dateAllowed (m : Merged) : Bool :=
  match m.dateRange with
  | none => true
  | some d => decide (d.start ≤ d.finish)

/-- Modelled from the spec: the function `compile(terms)` of the query compiler,
whose code is not among the sources.  The terms are merged in input order; the
result is `InvalidQuery` when the offset constraint or the date constraint is
violated; the defaults are a limit of 50, `UsedResources` and `HighScoredFirst`. -/
def compile (terms : List Term) : Except QueryError Query :=
  let m := terms.foldl mergeTerm Merged.empty
  if offsetAllowed m && dateAllowed m then
    Except.ok
      { ordering := m.ordering.getD Terms.Order.HighScoredFirst
        selection := m.selection.getD Terms.Select.UsedResources
        limit := m.limit.getD 50
        offset := m.offset.getD 0
        types := m.types
        agents := m.agents
        activities := m.activities
        urlFilters := m.urlFilters
        titleFilters := m.titleFilters
        dateRange := m.dateRange }
  else
    Except.error QueryError.InvalidQuery

end KActivities.Stats

namespace Common

/-! ## The scanner and its runs -/

theorem splitRuns_ne_nil (e : Bool) (p : List Char) : splitRuns e p ≠ [] := by
  induction p generalizing e with
  | nil => cases e <;> simp [splitRuns]
  | cons c cs ih =>
    cases e
    · simp only [splitRuns]
      split
      · have := ih true
        cases h : splitRuns true cs <;> simp_all [consRun]
      · split
        · simp
        · have := ih false
          cases h : splitRuns false cs <;> simp_all [consRun]
    · simp only [splitRuns]
      have := ih false
      cases h : splitRuns false cs <;> simp_all [consRun]

theorem appendHead_consRun (cur : List Char) (c : Char) (runs : List (List Char)) :
    appendHead cur (consRun c runs) = appendHead (cur ++ [c]) runs := by
  cases runs <;> simp [appendHead, consRun]

theorem appendHead_nil_left (runs : List (List Char)) (h : runs ≠ []) :
    appendHead [] runs = runs := by
  cases runs with
  | nil => exact absurd rfl h
  | cons r rs => simp [appendHead]

theorem joinRuns_singleton (joker : List Char) (escape : List Char → List Char)
    (r : List Char) : joinRuns joker escape [r] = if r = [] then [] else escape r := by
  simp [joinRuns]

theorem joinRuns_cons (joker : List Char) (escape : List Char → List Char)
    (r : List Char) (rs : List (List Char)) (h : rs ≠ []) :
    joinRuns joker escape (r :: rs) = escape r ++ joker ++ joinRuns joker escape rs := by
  cases rs with
  | nil => exact absurd rfl h
  | cons r1 rs1 => simp [joinRuns, List.getLastD_cons]

theorem stringFromIterators_run (pre cur rest : List Char) :
    stringFromIterators (pre ++ cur ++ rest) pre.length (pre.length + cur.length) = cur := by
  simp [stringFromIterators, mid, List.append_assoc]

/-- The loop invariant of `parseStarPattern`: with `pre` the text before
`currentStart`, `cur` the run in progress and `rest` the text still to scan,
the result is the buffer followed by the joined runs of what is left. -/
theorem scan_eq_joinRuns (joker : List Char) (escape : List Char → List Char)
    (rest pre cur : List Char) (e : Bool) (res : List Char) (pattern : List Char)
    (hp : pattern = pre ++ cur ++ rest) :
    scanFinish pattern escape
        (rest.foldl (scanStep pattern joker escape)
          { currentStart := pre.length, currentPosition := pre.length + cur.length,
            isEscaped := e, resultPattern := res })
      = res ++ joinRuns joker escape (appendHead cur (splitRuns e rest)) := by
  induction rest generalizing pre cur e res with
  | nil =>
    subst hp
    have h := stringFromIterators_run pre cur []
    cases e <;> cases cur <;>
      simp_all [scanFinish, splitRuns, appendHead, joinRuns_singleton]
  | cons c cs ih =>
    have hp1 : pattern = pre ++ (cur ++ [c]) ++ cs := by simp [hp]
    have hlen : pre.length + cur.length + 1 = pre.length + (cur ++ [c]).length := by
      simp; omega
    cases e with
    | true =>
      simp only [List.foldl_cons, scanStep, splitRuns, if_true, appendHead_consRun]
      rw [hlen]
      exact ih pre (cur ++ [c]) false res hp1
    | false =>
      by_cases hb : c = backslash
      · simp only [List.foldl_cons, scanStep, splitRuns, hb, if_true, appendHead_consRun,
          Bool.false_eq_true, if_false]
        rw [← hb, hlen]
        exact ih pre (cur ++ [c]) true res hp1
      · by_cases hs : c = star
        · have hp2 : pattern = (pre ++ cur ++ [c]) ++ [] ++ cs := by simp [hp]
          have hlen2 : pre.length + cur.length + 1
              = (pre ++ cur ++ [c]).length + ([] : List Char).length := by
            simp; omega
          have hlen3 : pre.length + cur.length + 1 = (pre ++ cur ++ [c]).length := by
            simp; omega
          have hrun : stringFromIterators pattern pre.length (pre.length + cur.length) = cur := by
            rw [hp]; exact stringFromIterators_run pre cur (c :: cs)
          have hsb : ¬ star = backslash := by decide
          simp only [List.foldl_cons, scanStep, splitRuns, hs, hsb, if_true,
            Bool.false_eq_true, if_false, hrun]
          have key := ih (pre ++ cur ++ [c]) [] false (res ++ (escape cur ++ joker)) hp2
          rw [← hlen2, ← hlen3] at key
          rw [key, appendHead_nil_left _ (splitRuns_ne_nil false cs)]
          simp [appendHead, joinRuns_cons _ _ _ _ (splitRuns_ne_nil false cs), List.append_assoc]
        · simp only [List.foldl_cons, scanStep, splitRuns, hb, hs, appendHead_consRun,
            Bool.false_eq_true, if_false]
          rw [hlen]
          exact ih pre (cur ++ [c]) false res hp1

theorem parseStarPattern_eq_joinRuns (pattern joker : List Char)
    (escape : List Char → List Char) :
    parseStarPattern pattern joker escape = joinRuns joker escape (splitRuns false pattern) := by
  have h := scan_eq_joinRuns joker escape pattern [] [] false [] pattern (by simp)
  simp only [List.length_nil, Nat.add_zero, List.nil_append] at h
  rw [appendHead_nil_left _ (splitRuns_ne_nil false pattern)] at h
  exact h

/-! ## The escape function of the storage form -/

theorem replace_single (s : List Char) (a : Char) (after : List Char) :
    replace s [a] after = s.flatMap fun c => if c = a then after else [c] := by
  unfold replace
  induction s with
  | nil => simp [replaceAux]
  | cons c cs ih =>
    by_cases h : c = a
    · subst h
      simp [replaceAux, List.isPrefixOf, ih]
    · have h1 : ¬ a = c := fun e => h e.symm
      simp [replaceAux, List.isPrefixOf, ih, h, h1]

theorem escapeSqliteLikePattern_eq_flatMap (s : List Char) :
    escapeSqliteLikePattern s = s.flatMap escapeSqliteLikeChar := by
  unfold escapeSqliteLikePattern
  rw [replace_single, replace_single, replace_single, List.flatMap_assoc, List.flatMap_assoc]
  congr 1
  funext c
  have h1 : ¬ backslash = underscore := by decide
  have h2 : ¬ percent = underscore := by decide
  have h3 : ¬ backslash = quote := by decide
  have h4 : ¬ percent = quote := by decide
  have h5 : ¬ underscore = quote := by decide
  unfold escapeSqliteLikeChar
  by_cases hp : c = percent
  · subst hp
    simp [h1, h2, h3, h4]
  · by_cases hu : c = underscore
    · subst hu
      simp [h1, h2, h3, h4, h5, hp]
    · by_cases hq : c = quote
      · subst hq
        simp [hp, hu]
      · simp [hp, hu, hq]

/-! ## LIKE patterns without a wildcard -/

theorem likeMatch_escaped (c : Char) (p s : List Char) :
    likeMatch (backslash :: c :: p) s
      = match s with
        | [] => false
        | y :: t => y == c && likeMatch p t := by
  have h1 : ¬ backslash = percent := by decide
  have h2 : ¬ backslash = underscore := by decide
  cases s <;> simp [likeMatch, h1, h2]

theorem likeMatch_plain (c : Char) (p s : List Char)
    (hp : c ≠ percent) (hu : c ≠ underscore) (hb : c ≠ backslash) :
    likeMatch (c :: p) s
      = match s with
        | [] => false
        | y :: t => y == c && likeMatch p t := by
  cases s <;> cases p <;> simp [likeMatch, hp, hu, hb]

/-- A pattern in which every character of `l` is either escaped or plain and
no wildcard matches `l` and nothing else. -/
theorem likeMatch_flatMap_literal (g : Char → List Char) (l : List Char)
    (h : ∀ c ∈ l, g c = [backslash, c]
      ∨ (g c = [c] ∧ c ≠ percent ∧ c ≠ underscore ∧ c ≠ backslash))
    (s : List Char) : likeMatch (l.flatMap g) s = true ↔ s = l := by
  induction l generalizing s with
  | nil => cases s <;> simp [likeMatch]
  | cons c cs ih =>
    have hc := h c (List.mem_cons_self c cs)
    have ih1 := fun t => ih (fun x hx => h x (List.mem_cons_of_mem c hx)) t
    rw [List.flatMap_cons]
    rcases hc with hc | ⟨hc, hp, hu, hb⟩
    · rw [hc]
      simp only [List.cons_append, List.nil_append]
      rw [likeMatch_escaped]
      cases s with
      | nil => simp
      | cons y t => simp [ih1 t]
    · rw [hc]
      simp only [List.cons_append, List.nil_append]
      rw [likeMatch_plain c _ _ hp hu hb]
      cases s with
      | nil => simp
      | cons y t => simp [ih1 t]

theorem likeAnyRun_of_nil (k : List Char → Bool) (h : k [] = true) (s : List Char) :
    likeAnyRun k s = true := by
  induction s with
  | nil => simpa [likeAnyRun] using h
  | cons c cs ih => simp [likeAnyRun, ih]

theorem likeMatch_percent (s : List Char) : likeMatch [percent] s = true := by
  have h : likeMatch [percent] s = likeAnyRun (likeMatch []) s := by
    simp [likeMatch]
  rw [h]
  exact likeAnyRun_of_nil _ (by decide) s

/-! ## Escaped literals -/

theorem splitRuns_escapeStarPattern (l : List Char) :
    splitRuns false (escapeStarPattern l) = [escapeStarPattern l] := by
  induction l with
  | nil => simp [escapeStarPattern, splitRuns]
  | cons c cs ih =>
    have hcons : escapeStarPattern (c :: cs)
        = (if c = star ∨ c = backslash then [backslash, c] else [c]) ++ escapeStarPattern cs := by
      simp [escapeStarPattern]
    rw [hcons]
    by_cases hc : c = star ∨ c = backslash
    · simp [hc, splitRuns, ih, consRun]
    · have h1 : ¬ c = star := fun e => hc (Or.inl e)
      have h2 : ¬ c = backslash := fun e => hc (Or.inr e)
      simp [hc, h1, h2, splitRuns, ih, consRun]

theorem starPatternToLike_escapeStarPattern (l : List Char) :
    starPatternToLike (escapeStarPattern l)
      = l.flatMap fun c => (if c = star ∨ c = backslash then [backslash, c] else [c]).flatMap
          escapeSqliteLikeChar := by
  unfold starPatternToLike
  rw [parseStarPattern_eq_joinRuns, splitRuns_escapeStarPattern, joinRuns_singleton,
    escapeSqliteLikePattern_eq_flatMap]
  by_cases h : escapeStarPattern l = []
  · rw [if_pos h]
    have : l = [] := by
      cases l with
      | nil => rfl
      | cons c cs =>
        exfalso
        by_cases hc : c = star ∨ c = backslash <;> simp [escapeStarPattern, hc] at h
    simp [this]
  · rw [if_neg h]
    simp [escapeStarPattern, List.flatMap_assoc]

theorem escapeSqliteLikeChar_literal (c : Char) (hb : c ≠ backslash) :
    escapeSqliteLikeChar c = [backslash, c]
      ∨ (escapeSqliteLikeChar c = [c] ∧ c ≠ percent ∧ c ≠ underscore ∧ c ≠ backslash) := by
  unfold escapeSqliteLikeChar
  by_cases hp : c = percent
  · left; simp [hp]
  · by_cases hu : c = underscore
    · left; simp [hu]; decide
    · by_cases hq : c = quote
      · left; simp [hq]; decide
      · right; simp [hp, hu, hq, hb]

/-! ## The match form of a pattern without a star -/

theorem splitRuns_of_no_star (p : List Char) (e : Bool) (h : star ∉ p) :
    splitRuns e p = [p] := by
  induction p generalizing e with
  | nil => cases e <;> simp [splitRuns]
  | cons c cs ih =>
    have hc : ¬ c = star := fun x => h (x ▸ List.mem_cons_self c cs)
    have hcs : star ∉ cs := fun x => h (List.mem_cons_of_mem c x)
    cases e
    · by_cases hb : c = backslash <;> simp [splitRuns, hb, hc, ih _ hcs, consRun]
    · simp [splitRuns, ih _ hcs, consRun]

theorem anchoredBody_anchoredPattern (x : List Char) :
    anchoredBody (QRegularExpression.anchoredPattern x) = some x := by
  have hsuf : [Char.ofNat 41, backslash, 'z'].isSuffixOf (x ++ [Char.ofNat 41, backslash, 'z'])
      = true := by
    rw [List.isSuffixOf_iff_suffix]
    exact List.suffix_append _ _
  have hlen : (x ++ [Char.ofNat 41, backslash, 'z']).length - 3 = x.length := by simp
  simp only [anchoredBody, QRegularExpression.anchoredPattern, List.append_assoc,
    List.cons_append, List.nil_append, List.isPrefixOf, List.drop_succ_cons, List.drop_zero,
    beq_self_eq_true, Bool.and_self, Bool.true_and, hsuf, if_true, List.length_cons]
  congr 1
  have h8 : (x ++ [Char.ofNat 41, backslash, 'z']).length + 1 + 1 + 1 + 1 + 1 - 8 = x.length := by
    simp
  rw [h8]
  exact List.take_left _ _

theorem parseItemsAux_escape (p : List Char) (h : Char.ofNat 0 ∉ p) :
    parseItemsAux 0 (QRegularExpression.escape p) = some (p.map RegexItem.literal) := by
  induction p with
  | nil => simp [QRegularExpression.escape, parseItemsAux]
  | cons c cs ih =>
    have hc : ¬ c = Char.ofNat 0 := fun x => h (x ▸ List.mem_cons_self c cs)
    have hcs : Char.ofNat 0 ∉ cs := fun x => h (List.mem_cons_of_mem c x)
    have ih1 := ih hcs
    have hcons : QRegularExpression.escape (c :: cs)
        = (if isWordChar c then [c] else [backslash, c]) ++ QRegularExpression.escape cs := by
      simp [QRegularExpression.escape, hc]
    rw [hcons]
    by_cases hw : isWordChar c = true
    · have hb : ¬ c = backslash := by
        intro x; rw [x] at hw; exact absurd hw (by decide)
      have hd : ¬ c = dot := by
        intro x; rw [x] at hw; exact absurd hw (by decide)
      simp [hw, parseItemsAux, hb, hd, ih1, consItem]
    · have hz : ¬ c = '0' := by
        intro x; rw [x] at hw; exact hw (by decide)
      simp [hw, parseItemsAux, hz, ih1, consItem]

theorem matchItems_literals (p s : List Char) :
    matchItems (p.map RegexItem.literal) s = true ↔ s = p := by
  induction p generalizing s with
  | nil => cases s <;> simp [matchItems]
  | cons c cs ih => cases s <;> simp [matchItems, ih]

/-- The match form of a pattern without a star (and without a NUL character)
matches the text of the pattern as it stands, its backslashes included, and
nothing else. -/
theorem starPatternToRegex_of_no_star (p s : List Char) (hs : star ∉ p)
    (h0 : Char.ofNat 0 ∉ p) :
    (starPatternToRegex p).hasMatch s = some (decide (s = p)) := by
  have hparsed : parseStarPattern p [dot, star] QRegularExpression.escape
      = QRegularExpression.escape p := by
    rw [parseStarPattern_eq_joinRuns, splitRuns_of_no_star p false hs, joinRuns_singleton]
    by_cases hp : p = []
    · simp [hp, QRegularExpression.escape]
    · simp [hp]
  simp only [QRegularExpression.hasMatch, starPatternToRegex, hparsed,
    anchoredBody_anchoredPattern, parseItems, parseItemsAux_escape p h0]
  congr 1
  by_cases hsp : s = p
  · simp [hsp, (matchItems_literals p p).2 rfl]
  · have : ¬ matchItems (p.map RegexItem.literal) s = true := fun x =>
      hsp ((matchItems_literals p s).1 x)
    simp [hsp, this]

theorem dotStar_end (s : List Char) :
    dotStar (fun x => x.isEmpty) s = decide (lineFeed ∉ s) := by
  induction s with
  | nil => simp [dotStar]
  | cons c cs ih =>
    by_cases h : c = lineFeed
    · simp [dotStar, h]
    · have h1 : ¬ lineFeed = c := fun x => h x.symm
      rw [dotStar, ih]
      simp [h, h1]

/-- The match form of the pattern that is one star matches the strings that
hold no line feed, and only them. -/
theorem starPatternToRegex_star_hasMatch (s : List Char) :
    (starPatternToRegex [star]).hasMatch s = some (decide (lineFeed ∉ s)) := by
  have hp : (starPatternToRegex [star]).pattern
      = QRegularExpression.anchoredPattern [dot, star] := by decide
  have hi : parseItems [dot, star] = some [RegexItem.anyRun] := by decide
  simp only [QRegularExpression.hasMatch, hp, anchoredBody_anchoredPattern, hi, matchItems]
  rw [dotStar_end]

/-! ## Joining runs under an escape function that works character by character -/

theorem joinRuns_consRun (joker : List Char) (escape : List Char → List Char)
    (f : Char → List Char) (h0 : escape [] = [])
    (hc : ∀ c r, escape (c :: r) = f c ++ escape r)
    (c : Char) (runs : List (List Char)) (h : runs ≠ []) :
    joinRuns joker escape (consRun c runs) = f c ++ joinRuns joker escape runs := by
  cases runs with
  | nil => exact absurd rfl h
  | cons r rs =>
    cases rs with
    | nil =>
      simp only [consRun, joinRuns_singleton]
      by_cases hr : r = []
      · simp [hr, hc, h0]
      · simp [hr, hc]
    | cons r1 rs1 =>
      simp only [consRun]
      rw [joinRuns_cons _ _ _ _ (List.cons_ne_nil r1 rs1),
        joinRuns_cons _ _ _ _ (List.cons_ne_nil r1 rs1), hc]
      simp [List.append_assoc]

theorem joinRuns_nil_cons (joker : List Char) (escape : List Char → List Char)
    (h0 : escape [] = []) (runs : List (List Char)) (h : runs ≠ []) :
    joinRuns joker escape ([] :: runs) = joker ++ joinRuns joker escape runs := by
  rw [joinRuns_cons _ _ _ _ h, h0]
  simp

/-- Without a backslash in the pattern every star is a cut, so the result is
the pattern with each star turned into the joker and each other character
escaped on its own. -/
theorem parseStarPattern_of_no_backslash (joker : List Char) (f : Char → List Char)
    (p : List Char) (h : backslash ∉ p) :
    parseStarPattern p joker (fun r => r.flatMap f)
      = p.flatMap fun c => if c = star then joker else f c := by
  rw [parseStarPattern_eq_joinRuns]
  induction p with
  | nil => simp [splitRuns, joinRuns_singleton]
  | cons c cs ih =>
    have hb : ¬ c = backslash := fun x => h (x ▸ List.mem_cons_self c cs)
    have ih1 := ih (fun x => h (List.mem_cons_of_mem c x))
    by_cases hs : c = star
    · have hsb : ¬ star = backslash := by decide
      simp only [splitRuns, hs, hsb, if_true, if_false, List.flatMap_cons]
      rw [joinRuns_nil_cons joker (fun r => r.flatMap f) (by simp) _
        (splitRuns_ne_nil false cs), ih1]
    · simp only [splitRuns, hb, hs, if_false, List.flatMap_cons]
      rw [joinRuns_consRun joker _ f (by simp) (by intro c r; simp) c _
        (splitRuns_ne_nil false cs), ih1]

theorem joinRuns_star_id_splitRuns (e : Bool) (p : List Char) :
    joinRuns [star] id (splitRuns e p) = p := by
  have hcons : ∀ (c : Char) (runs : List (List Char)), runs ≠ [] →
      joinRuns [star] id (consRun c runs) = c :: joinRuns [star] id runs := by
    intro c runs h
    have := joinRuns_consRun [star] id (fun x => [x]) rfl (by intro c r; simp) c runs h
    simpa using this
  induction p generalizing e with
  | nil => cases e <;> simp [splitRuns, joinRuns_singleton]
  | cons c cs ih =>
    cases e
    · by_cases hb : c = backslash
      · simp only [splitRuns, hb, if_true]
        rw [hcons _ _ (splitRuns_ne_nil true cs), ih]
      · by_cases hs : c = star
        · have hsb : ¬ star = backslash := by decide
          simp only [splitRuns, hs, hsb, if_true, if_false]
          rw [joinRuns_nil_cons [star] id rfl _ (splitRuns_ne_nil false cs), ih]
          simp
        · simp only [splitRuns, hb, hs, if_false]
          rw [hcons _ _ (splitRuns_ne_nil false cs), ih]
    · simp only [splitRuns]
      rw [hcons _ _ (splitRuns_ne_nil false cs), ih]

/-! ## The storage form as a glob -/

theorem likeMatch_percent_cons (p s : List Char) :
    likeMatch (percent :: p) s = likeAnyRun (likeMatch p) s := by
  cases p <;> simp [likeMatch]

theorem likeMatch_escapeSqliteLikeChar (c : Char) (p s : List Char) (hb : c ≠ backslash) :
    likeMatch (escapeSqliteLikeChar c ++ p) s
      = match s with
        | [] => false
        | y :: t => y == c && likeMatch p t := by
  rcases escapeSqliteLikeChar_literal c hb with h | ⟨h, hp, hu, hbb⟩
  · rw [h]
    exact likeMatch_escaped c p s
  · rw [h]
    exact likeMatch_plain c p s hp hu hbb

theorem likeAnyRun_congr (k1 k2 : List Char → Bool) (h : ∀ s, k1 s = k2 s) (s : List Char) :
    likeAnyRun k1 s = likeAnyRun k2 s := by
  induction s with
  | nil => simp [likeAnyRun, h]
  | cons c cs ih => simp [likeAnyRun, h, ih]

theorem likeMatch_flatMap_glob (p s : List Char) (h : backslash ∉ p) :
    likeMatch (p.flatMap fun c => if c = star then [percent] else escapeSqliteLikeChar c) s
      = globMatch p s := by
  induction p generalizing s with
  | nil => simp [likeMatch, globMatch]
  | cons c cs ih =>
    have hb : c ≠ backslash := fun x => h (x ▸ List.mem_cons_self c cs)
    have ih1 := fun t => ih t (fun x => h (List.mem_cons_of_mem c x))
    rw [List.flatMap_cons]
    by_cases hs : c = star
    · simp only [hs, if_true, List.cons_append, List.nil_append, globMatch]
      rw [likeMatch_percent_cons]
      exact likeAnyRun_congr _ _ ih1 s
    · simp only [hs, if_false, globMatch]
      rw [likeMatch_escapeSqliteLikeChar c _ s hb]
      cases s with
      | nil => rfl
      | cons y t => simp [ih1 t]

/-! ## The escape function character by character -/

theorem escapeSqliteLikeChar_eq (c : Char) :
    escapeSqliteLikeChar c
      = if c = percent ∨ c = underscore ∨ c = quote then [backslash, c] else [c] := by
  unfold escapeSqliteLikeChar
  by_cases hp : c = percent
  · simp [hp]
  · by_cases hu : c = underscore
    · simp [hu]
      decide
    · by_cases hq : c = quote
      · simp [hq]
        decide
      · simp [hp, hu, hq]

theorem escapeSqliteLikePattern_eq_charwise (t : List Char) :
    escapeSqliteLikePattern t = escapeSqliteLikeCharwise t := by
  rw [escapeSqliteLikePattern_eq_flatMap]
  unfold escapeSqliteLikeCharwise
  congr 1
  funext c
  exact escapeSqliteLikeChar_eq c

theorem length_escapeSqliteLikeCharwise (t : List Char) :
    (escapeSqliteLikeCharwise t).length = t.length + countSqliteLikeSpecial t := by
  induction t with
  | nil => simp [escapeSqliteLikeCharwise, countSqliteLikeSpecial]
  | cons c cs ih =>
    have hcons : escapeSqliteLikeCharwise (c :: cs)
        = (if c = percent ∨ c = underscore ∨ c = quote then [backslash, c] else [c])
          ++ escapeSqliteLikeCharwise cs := by
      simp [escapeSqliteLikeCharwise]
    rw [hcons, List.length_append, ih]
    unfold countSqliteLikeSpecial
    by_cases hc : c = percent ∨ c = underscore ∨ c = quote
    · have hd : (c == percent || c == underscore || c == quote) = true := by
        simpa [Bool.or_assoc] using hc
      rw [List.countP_cons, if_pos hd, if_pos hc]
      simp only [List.length_cons, List.length_nil]
      omega
    · have hd : ¬ (c == percent || c == underscore || c == quote) = true := by
        simpa [Bool.or_assoc] using hc
      rw [List.countP_cons, if_neg hd, if_neg hc]
      simp only [List.length_cons, List.length_nil]
      omega

end Common

namespace Common

/-! ## The claims about the star patterns -/

/-- Claim C1, the code at the failing input.  For the pattern backslash-star the
storage form is backslash-star, which read as a LIKE pattern matches the string
made of one star, while the expression of the match form is the anchored
backslash-backslash-backslash-star, which does not match that string and
matches the two characters backslash and star instead: the two forms disagree. -/
theorem starPattern_forms_disagree_on_escaped_star :
    starPatternToLike [backslash, star] = [backslash, star]
      ∧ likeMatch (starPatternToLike [backslash, star]) [star] = true
      ∧ (starPatternToRegex [backslash, star]).pattern
          = QRegularExpression.anchoredPattern [backslash, backslash, backslash, star]
      ∧ (starPatternToRegex [backslash, star]).hasMatch [star] = some false
      ∧ (starPatternToRegex [backslash, star]).hasMatch [backslash, star] = some true := by
  decide

/-- Claim C2.  For every literal string `l`, with `escapeStarPattern l` the
string `l` with a backslash put before every star and every backslash, the
storage form of `escapeStarPattern l`, read as a LIKE pattern with the backslash
as escape character, matches a string `s` if and only if `s` is `l`. -/
theorem starPatternToLike_escaped_literal_matches_only_itself (l s : List Char) :
    likeMatch (starPatternToLike (escapeStarPattern l)) s = true ↔ s = l := by
  rw [starPatternToLike_escapeStarPattern]
  apply likeMatch_flatMap_literal
  intro c _
  have h1 : ¬ star = percent := by decide
  have h2 : ¬ star = underscore := by decide
  have h3 : ¬ star = quote := by decide
  have h4 : ¬ backslash = percent := by decide
  have h5 : ¬ backslash = underscore := by decide
  have h6 : ¬ backslash = quote := by decide
  by_cases hs : c = star
  · subst hs
    left
    simp [escapeSqliteLikeChar, h1, h2, h3, h4, h5, h6]
  · by_cases hb : c = backslash
    · subst hb
      left
      simp [escapeSqliteLikeChar, h4, h5, h6]
    · have hc : ¬ (c = star ∨ c = backslash) := by simp [hs, hb]
      simp only [hc, if_false, List.flatMap_cons, List.flatMap_nil, List.append_nil]
      exact escapeSqliteLikeChar_literal c hb

/-- Claim C3, the code at the failing input.  The pattern backslash-a has no
star and `unescape` makes the string `a` of it, yet the expression of the match
form is the anchored backslash-backslash-a: it does not match the string `a`
and matches the two characters backslash and `a` instead. -/
theorem starPatternToRegex_keeps_escaping_backslash :
    star ∉ [backslash, 'a']
      ∧ unescape [backslash, 'a'] = ['a']
      ∧ (starPatternToRegex [backslash, 'a']).pattern
          = QRegularExpression.anchoredPattern [backslash, backslash, 'a']
      ∧ (starPatternToRegex [backslash, 'a']).hasMatch ['a'] = some false
      ∧ (starPatternToRegex [backslash, 'a']).hasMatch [backslash, 'a'] = some true := by
  decide

/-- On a string that holds no backslash `escapeSqliteLikePattern` does its work:
for every such string `t` and every string `s`, `s` matches
`escapeSqliteLikePattern t` read as a LIKE pattern with the backslash as escape
character if and only if `s` is `t`. -/
theorem escapeSqliteLikePattern_matches_only_itself (t s : List Char)
    (h : backslash ∉ t) :
    likeMatch (escapeSqliteLikePattern t) s = true ↔ s = t := by
  rw [escapeSqliteLikePattern_eq_flatMap]
  apply likeMatch_flatMap_literal
  intro c hc
  exact escapeSqliteLikeChar_literal c (fun e => h (e ▸ hc))

/-- The string percent-underscore-quote-a, which holds no backslash, escaped and
read as a LIKE pattern matches itself. -/
theorem escapeSqliteLikePattern_matches_only_itself_witness :
    backslash ∉ [percent, underscore, quote, 'a']
      ∧ (likeMatch (escapeSqliteLikePattern [percent, underscore, quote, 'a'])
            [percent, underscore, quote, 'a'] = true
          ↔ [percent, underscore, quote, 'a'] = [percent, underscore, quote, 'a']) :=
  ⟨by decide, escapeSqliteLikePattern_matches_only_itself _ _ (by decide)⟩

/-- Claim C5.  `parseStarPattern` equals its reference definition: for every
pattern, joker and escape function the result is made of the literal runs
between the stars that are not escaped, each run but the last escaped and
followed by the joker, the last run escaped when it is not empty and left out
when it is. -/
theorem parseStarPattern_eq_parseStarPatternByRuns (pattern joker : List Char)
    (escape : List Char → List Char) :
    parseStarPattern pattern joker escape = parseStarPatternByRuns pattern joker escape := by
  unfold parseStarPatternByRuns
  exact parseStarPattern_eq_joinRuns pattern joker escape

/-- Claim C6, the code at the failing input.  In the pattern backslash-percent
no star is there and no backslash dangles, and `unescape` makes the string
percent of it; the storage form is backslash-backslash-percent, a literal
backslash followed by the wildcard, which does not match the string percent and
matches every string that starts with a backslash. -/
theorem starPatternToLike_escaped_percent_is_wildcard :
    unescape [backslash, percent] = [percent]
      ∧ starPatternToLike [backslash, percent] = [backslash, backslash, percent]
      ∧ likeMatch (starPatternToLike [backslash, percent]) [percent] = false
      ∧ ∀ s, likeMatch (starPatternToLike [backslash, percent]) (backslash :: s) = true := by
  refine ⟨by decide, by decide, by decide, ?_⟩
  intro s
  have h : starPatternToLike [backslash, percent] = [backslash, backslash, percent] := by decide
  rw [h, likeMatch_escaped]
  simp [likeMatch_percent s]

/-- Claim C7, the code at the failing input.  The pattern that is one star
compiles to the percent sign and to the anchored dot-star; every string matches
the percent sign read as a LIKE pattern, but the string that is one line feed
does not match the anchored dot-star, since the dot takes no line feed: the
match form accepts the strings without a line feed and no other. -/
theorem star_alone_regex_rejects_line_feed :
    starPatternToLike [star] = [percent]
      ∧ (starPatternToRegex [star]).pattern = QRegularExpression.anchoredPattern [dot, star]
      ∧ (∀ s, likeMatch (starPatternToLike [star]) s = true)
      ∧ (starPatternToRegex [star]).hasMatch [lineFeed] = some false
      ∧ (∀ s, (starPatternToRegex [star]).hasMatch s = some (decide (lineFeed ∉ s))) := by
  refine ⟨by decide, by decide, ?_, by decide, starPatternToRegex_star_hasMatch⟩
  intro s
  have h : starPatternToLike [star] = [percent] := by decide
  rw [h]
  exact likeMatch_percent s

/-! ## The claims about the empty pattern, globs and the escape function -/

/-- Claim C11.  The empty pattern compiles to the empty storage pattern:
`starPatternToLike` of the empty string is the empty string, and so is the
result of `parseStarPattern` on it for every joker and every escape function
(the escape function is not called and no joker is put out); read as a LIKE
pattern it matches a string if and only if the string is empty. -/
theorem starPatternToLike_empty_pattern :
    starPatternToLike [] = []
      ∧ (∀ (joker : List Char) (escape : List Char → List Char),
          parseStarPattern [] joker escape = [])
      ∧ ∀ s, likeMatch (starPatternToLike []) s = true ↔ s = [] := by
  refine ⟨by decide, ?_, ?_⟩
  · intro joker escape
    simp [parseStarPattern, scanFinish, scanInit]
  · intro s
    have h : starPatternToLike [] = [] := by decide
    rw [h]
    cases s <;> simp [likeMatch]

/-- Claim C12.  For every pattern `p` that holds no backslash and every string
`s`, `s` matches `starPatternToLike p` read as a LIKE pattern with the backslash
as escape character if and only if `s` matches `p` as a glob in which the star
stands for any run of characters and every other character, the percent sign,
the underscore and the quote included, stands for itself. -/
theorem starPatternToLike_matches_as_glob (p s : List Char) (h : backslash ∉ p) :
    likeMatch (starPatternToLike p) s = true ↔ globMatch p s = true := by
  have hesc : escapeSqliteLikePattern = fun r => r.flatMap escapeSqliteLikeChar := by
    funext r
    exact escapeSqliteLikePattern_eq_flatMap r
  unfold starPatternToLike
  rw [hesc, parseStarPattern_of_no_backslash [percent] escapeSqliteLikeChar p h,
    likeMatch_flatMap_glob p s h]

/-- Claim C12 at the pattern `a*%_` followed by a quote and the string `axy%_`
followed by a quote, which do match. -/
theorem starPatternToLike_matches_as_glob_witness :
    backslash ∉ ['a', star, percent, underscore, quote]
      ∧ globMatch ['a', star, percent, underscore, quote]
          ['a', 'x', 'y', percent, underscore, quote] = true
      ∧ (likeMatch (starPatternToLike ['a', star, percent, underscore, quote])
            ['a', 'x', 'y', percent, underscore, quote] = true
          ↔ globMatch ['a', star, percent, underscore, quote]
            ['a', 'x', 'y', percent, underscore, quote] = true) :=
  ⟨by decide, by decide, starPatternToLike_matches_as_glob _ _ (by decide)⟩

/-- Claim C13.  The scanner with the star as joker and the identity as escape
function gives back its pattern: for every pattern `p`, escaped stars, doubled
backslashes, stars in a row and a dangling backslash at the end included,
`parseStarPattern p "*" identity` is `p`. -/
theorem parseStarPattern_star_identity (p : List Char) :
    parseStarPattern p [star] id = p := by
  rw [parseStarPattern_eq_joinRuns]
  exact joinRuns_star_id_splitRuns false p

/-- Claim C14.  The three chained replacements of `escapeSqliteLikePattern` are
one map over the characters: the result is the concatenation, over the
characters `c` of the string, of backslash and `c` when `c` is a percent sign,
an underscore or a quote and of `c` alone otherwise; its length is the length of
the string plus the number of its percent signs, underscores and quotes. -/
theorem escapeSqliteLikePattern_is_charwise (t : List Char) :
    escapeSqliteLikePattern t = escapeSqliteLikeCharwise t
      ∧ (escapeSqliteLikePattern t).length = t.length + countSqliteLikeSpecial t := by
  refine ⟨escapeSqliteLikePattern_eq_charwise t, ?_⟩
  rw [escapeSqliteLikePattern_eq_charwise]
  exact length_escapeSqliteLikeCharwise t

end Common

namespace KActivities.Stats

/-! ## The claims about the query terms -/

/-- Claim C8.  Compiling the terms `Limit(10)`, `Offset(5)` gives a query with
limit 10 and offset 5, and compiling an `Offset` term alone, with no `Limit`
term, fails with `InvalidQuery`. -/
theorem compile_offset_needs_limit :
    (∃ q, compile [Term.limit { value := 10 }, Term.offset { value := 5 }] = Except.ok q
        ∧ q.limit = 10 ∧ q.offset = 5)
      ∧ compile [Term.offset { value := 5 }] = Except.error QueryError.InvalidQuery
      ∧ ∀ k : Int, compile [Term.offset { value := k }]
          = Except.error QueryError.InvalidQuery :=
  ⟨⟨_, rfl, rfl, rfl⟩, rfl, fun _ => rfl⟩

end KActivities.Stats
